import Mathlib

/-!
Verification development for the generic repository and auth/session layer of
the `zatrano/genericrepo` codebase.

The Go sources are shallowly embedded:
* `repositories/base_repository.go` — the generic CRUD engine
  (`GetAll`, `GetByID`, `Update`, `BulkUpdate`, `Delete`, `BulkDelete`,
  `GetCount`) over a GORM store.
* `middlewares/auth.go` and `handlers/auth/auth_handler.go` — the
  session-backed auth flow (`AuthMiddleware`, `Logout`, `UpdatePassword`).

Entities are rows with a numeric primary key, a field map of named columns,
and a GORM soft-delete marker.  The GORM store itself is external to the
repository; its behaviour (queries scoped to non-deleted rows, `Delete`
setting the soft-delete marker, `Updates` writing exactly the supplied field
map) is modelled from the spec's store-interface section.  Fallible store
writes are modelled by explicit fault oracles so that partial-failure
behaviour is expressible.
-/

namespace Repo

/-- A column value: the entities used by the repository carry numeric and
string columns. -/
inductive Val where
  | nat (n : Nat)
  | str (s : String)
deriving Repr, DecidableEq

/-- A field map, as passed to `Update`/`BulkUpdate` (Go
`map[string]interface\x7b\x7d`), and also the named columns of a row. -/
abbrev FieldMap : Type := List (String × Val)

/-- Field lookup in a field map. -/
def getField (m : FieldMap) (k : String) : Option Val :=
  (m.find? (fun p => p.1 == k)).map Prod.snd

/-- Field assignment in a field map (Go map assignment `m[k] = v`): the key
`k` is bound to `v`, every other binding is kept. -/
def setField (m : FieldMap) (k : String) (v : Val) : FieldMap :=
  (m.filter (fun p => !(p.1 == k))) ++ [(k, v)]

/-- The keys of a field map. -/
def fieldKeys (m : FieldMap) : List String :=
  m.map Prod.fst

/-- An entity row: primary key `id`, named columns (`name`, `status`,
`type`, `updated_by`, `deleted_by`, ...) in `cols`, and the GORM
soft-delete marker `deletedAt` (true when the row is soft-deleted).
Modelled from the spec: entities have an identifier, audit columns and a
deletion marker. -/
structure Row where
  id : Nat
  cols : FieldMap
  deletedAt : Bool
deriving Repr, DecidableEq

/-- Column read on a row; `id` is the primary key, the rest live in the
field map. -/
def getCol (r : Row) (k : String) : Option Val :=
  if k = "id" then some (.nat r.id) else getField r.cols k

/-- The backing store: a bag of rows.  Soft-deleted rows remain present. -/
structure Store where
  rows : List Row
deriving Repr, DecidableEq

/-- Lookup of the row with a given primary key (ignoring the soft-delete
scope); used to describe what is physically in storage. -/
def rowById (st : Store) (id : Nat) : Option Row :=
  st.rows.find? (fun r => r.id == id)

/-- GORM `First(&result, id)`: the first row with the given primary key,
excluding soft-deleted rows (soft-delete scope). -/
def firstRow (st : Store) (id : Nat) : Option Row :=
  st.rows.find? (fun r => r.id == id && !r.deletedAt)

/-- The per-row transformation performed by the `deleted_by` stamp write:
writes the `deleted_by` column of the (non-soft-deleted) row with the given
primary key. -/
def stampFn (id actor : Nat) (r : Row) : Row :=
  if r.id == id && !r.deletedAt
  then { r with cols := setField r.cols "deleted_by" (.nat actor) }
  else r

/-- The per-row transformation performed by the soft-delete write: sets the
soft-delete marker of the (non-soft-deleted) row with the given primary
key. -/
def delFn (id : Nat) (r : Row) : Row :=
  if r.id == id && !r.deletedAt then { r with deletedAt := true } else r

/-- GORM `Model(&entity).Update("deleted_by", userID)`: writes the
`deleted_by` column of the (non-soft-deleted) row with the entity's primary
key. -/
def stampRowById (st : Store) (id actor : Nat) : Store :=
  ⟨st.rows.map (stampFn id actor)⟩

/-- GORM `Delete(&entity)` on a soft-deletable model: sets the soft-delete
marker of the (non-soft-deleted) row with the entity's primary key; the row
itself stays in storage. -/
def deleteRowById (st : Store) (id : Nat) : Store :=
  ⟨st.rows.map (delFn id)⟩

/-- Errors returned by the repository: the context-missing (MissingActor)
error (`"Delete: context içinde geçerli user_id yok"` /
`"BulkDelete: context içinde geçerli user_id yok"`), the NotFound error
(`"kayıt bulunamadı"`), and pass-through store errors. -/
inductive RepoError where
  | missingActor
  | notFound
  | store (code : Nat)
deriving Repr, DecidableEq

/-- Store operations issued by a repository call, recorded as a trace:
a primary-key load, a conditional find, a `deleted_by` stamp write, and a
soft-delete write. -/
inductive Op where
  | load (id : Nat)
  | findWhere
  | stamp (id actor : Nat)
  | del (id : Nat)
deriving Repr, DecidableEq

/-- Fault oracle for the store writes issued by `Delete`/`BulkDelete`:
which stamp / soft-delete writes fail (per row id), and whether the bulk
find fails.  A failed write leaves the store unchanged. -/
structure Faults where
  stampFails : Nat → Bool
  deleteFails : Nat → Bool
  findFails : Bool

/-- Result of a mutating repository call: final store, trace of store
operations issued, and the returned error (if any). -/
structure RepoOut where
  store : Store
  ops : List Op
  err : Option RepoError
deriving Repr

/-- `GenericBaseRepository.GetByID` (base_repository.go:90-97): `First` by
primary key; `gorm.ErrRecordNotFound` is mapped to the NotFound error. -/
def GetByID (st : Store) (id : Nat) : Except RepoError Row :=
  match firstRow st id with
  | none => .error .notFound
  | some r => .ok r

/-- `GenericBaseRepository.Delete` (base_repository.go:125-147): requires a
non-zero `user_id` of the right type in the context (`ctx = none` models an
absent key or a value that is not a `uint`); then loads the row (NotFound
when absent), stamps `deleted_by` with the actor id, and finally issues the
soft delete. -/
def Delete (fl : Faults) (st : Store) (ctx : Option Nat) (id : Nat) : RepoOut :=
  match ctx with
  | none => ⟨st, [], some .missingActor⟩
  | some userID =>
    if userID == 0 then ⟨st, [], some .missingActor⟩
    else
      match firstRow st id with
      | none => ⟨st, [.load id], some .notFound⟩
      | some _ =>
        if fl.stampFails id then
          ⟨st, [.load id, .stamp id userID], some (.store 0)⟩
        else if fl.deleteFails id then
          ⟨stampRowById st id userID, [.load id, .stamp id userID, .del id],
            some (.store 1)⟩
        else
          ⟨deleteRowById (stampRowById st id userID) id,
            [.load id, .stamp id userID, .del id], none⟩

/-- A bulk-delete / bulk-update condition (Go `map[string]interface\x7b\x7d`
passed to `Where`): every listed column must equal the listed value. -/
abbrev Cond : Type := List (String × Val)

/-- SQL semantics of a map condition on a row. -/
def condMatches (c : Cond) (r : Row) : Bool :=
  c.all (fun p => getCol r p.1 == some p.2)

/-- GORM `Where(condition).Find(&entities)`: all rows matching the
condition, excluding soft-deleted rows. -/
def findWhere (st : Store) (c : Cond) : List Row :=
  st.rows.filter (fun r => !r.deletedAt && condMatches c r)

/-- The per-row loop of `BulkDelete` (base_repository.go:163-170): stamp
`deleted_by`, then soft-delete, stopping at the first error. -/
def bulkLoop (fl : Faults) (actor : Nat) (st : Store) : List Row → RepoOut
  | [] => ⟨st, [], none⟩
  | e :: rest =>
    if fl.stampFails e.id then
      ⟨st, [.stamp e.id actor], some (.store 0)⟩
    else
      let st1 := stampRowById st e.id actor
      if fl.deleteFails e.id then
        ⟨st1, [.stamp e.id actor, .del e.id], some (.store 1)⟩
      else
        let st2 := deleteRowById st1 e.id
        let out := bulkLoop fl actor st2 rest
        ⟨out.store, .stamp e.id actor :: .del e.id :: out.ops, out.err⟩

/-- `GenericBaseRepository.BulkDelete` (base_repository.go:149-173): the
same actor requirement as `Delete`, then a conditional find followed by the
stamp/soft-delete loop over every match. -/
def BulkDelete (fl : Faults) (st : Store) (ctx : Option Nat) (c : Cond) : RepoOut :=
  match ctx with
  | none => ⟨st, [], some .missingActor⟩
  | some userID =>
    if userID == 0 then ⟨st, [], some .missingActor⟩
    else if fl.findFails then ⟨st, [.findWhere], some (.store 2)⟩
    else
      let out := bulkLoop fl userID st (findWhere st c)
      ⟨out.store, .findWhere :: out.ops, out.err⟩

/-- Modelled from the spec: `queryparams.ListParams` (the `queryparams`
package is not part of the provided sources) — name/status/type filters,
sort column and direction, page and page size. -/
structure ListParams where
  name : String
  status : String
  rtype : String
  sortBy : String
  orderBy : String
  page : Int
  perPage : Int
deriving Repr, DecidableEq

/-- Modelled from the spec: `queryparams.DefaultSortBy`, the default sort
column (`id`) used when the requested sort column is not allow-listed. -/
def DefaultSortBy : String := "id"

/-- Modelled from the spec: `queryparams.DefaultOrderBy`, the fixed default
sort direction.  The spec does not pin the direction down; `"desc"` is fixed
here as representative, and theorems avoid depending on which of the two
directions it is wherever the spec leaves that open. -/
def DefaultOrderBy : String := "desc"

/-- Modelled from the spec: `ListParams.CalculateOffset`, the pagination
offset `(page-1) * perPage`, clamped to non-negative. -/
def CalculateOffset (p : ListParams) : Nat :=
  ((p.page - 1) * p.perPage).toNat

/-- Go `strings.ToLower`, character by character (the inputs of interest
are ASCII). -/
def goToLower (s : String) : String :=
  String.mk (s.data.map Char.toLower)

/-- Modelled from the spec: the case folding done by
`turkishsearch.SQLFilter` (the `turkishsearch` package is not part of the
provided sources) — lowercase folding extended with the Turkish dotted and
dotless letters. -/
def turkishFold (c : Char) : Char :=
  if c = 'İ' then 'i'
  else if c = 'I' then 'ı'
  else if c = 'Ç' then 'ç'
  else if c = 'Ğ' then 'ğ'
  else if c = 'Ö' then 'ö'
  else if c = 'Ş' then 'ş'
  else if c = 'Ü' then 'ü'
  else c.toLower

/-- Whether `needle` occurs at the head of `hay`. -/
def leadsWith : List Char → List Char → Bool
  | [], _ => true
  | _ :: _, [] => false
  | a :: as, b :: bs => a == b && leadsWith as bs

/-- Whether `needle` occurs contiguously anywhere in `hay`. -/
def containsSeq (needle : List Char) : List Char → Bool
  | [] => leadsWith needle []
  | b :: t => leadsWith needle (b :: t) || containsSeq needle (t)

/-- Modelled from the spec: `turkishsearch.SQLFilter("name", pattern)` —
a locale-aware, case/diacritic-insensitive "contains" filter. -/
def nameContains (field pattern : String) : Bool :=
  containsSeq (pattern.data.map turkishFold) (field.data.map turkishFold)

/-- The WHERE clause built by `GetAll` (base_repository.go:54-63): the
Turkish contains filter on `name` when `params.Name` is non-empty, and
exact matches on `status` / `type` when non-empty; the GORM soft-delete
scope excludes soft-deleted rows. -/
def rowMatchesParams (p : ListParams) (r : Row) : Bool :=
  (p.name == "" ||
    (match getCol r "name" with
     | some (.str s) => nameContains s p.name
     | _ => false)) &&
  (p.status == "" || getCol r "status" == some (.str p.status)) &&
  (p.rtype == "" || getCol r "type" == some (.str p.rtype)) &&
  !r.deletedAt

/-- The sort column actually used by `GetAll`
(base_repository.go:78-80): the requested column when allow-listed,
otherwise the default column. -/
def effectiveSortBy (allowed : List String) (sortBy : String) : String :=
  if allowed.contains sortBy then sortBy else DefaultSortBy

/-- The sort direction actually used by `GetAll`
(base_repository.go:74-77): the lowercased request when it is `asc` or
`desc`, otherwise the default direction. -/
def effectiveOrderBy (orderBy : String) : String :=
  let o := goToLower orderBy
  if o ≠ "asc" && o ≠ "desc" then DefaultOrderBy else o

/-- Column-value comparison used for ORDER BY. -/
def valLe : Val → Val → Bool
  | .nat a, .nat b => a ≤ b
  | .str a, .str b => a < b || a == b
  | .nat _, .str _ => true
  | .str _, .nat _ => false

/-- Row comparison for `ORDER BY col dir`; rows without the column compare
as smallest. -/
def rowLe (col dir : String) (a b : Row) : Bool :=
  let le := fun (x y : Row) =>
    match getCol x col, getCol y col with
    | some u, some v => valLe u v
    | none, _ => true
    | some _, none => false
  if dir = "desc" then le b a else le a b

/-- Insertion into a sorted list. -/
def insertSorted (le : Row → Row → Bool) (r : Row) : List Row → List Row
  | [] => [r]
  | x :: xs => if le r x then r :: x :: xs else x :: insertSorted le r xs

/-- The ORDER BY applied by `GetAll` (base_repository.go:81), as a sort of
the matching rows. -/
def sortRows (col dir : String) (l : List Row) : List Row :=
  l.foldr (insertSorted (rowLe col dir)) []

/-- Fault oracle for the two queries issued by `GetAll`. -/
structure QueryFaults where
  countFails : Bool
  findFails : Bool
deriving Repr, DecidableEq

/-- Result of `GetAll`: page items, total count, error, and the
column/direction pair passed to `Order` (none when no ORDER BY was built
because of the count short-circuit or a count error). -/
structure GetAllOut where
  items : List Row
  total : Nat
  err : Option RepoError
  orderUsed : Option (String × String)
deriving Repr, DecidableEq

/-- The body of `GetAll` once the effective sort column `sb` and direction
`ob` have been fixed: filter, count (short-circuiting on zero), order,
paginate, fetch. -/
def getAllCore (sb ob : String) (fl : QueryFaults) (st : Store)
    (p : ListParams) : GetAllOut :=
  if fl.countFails then ⟨[], 0, some (.store 10), none⟩
  else
    let matching := st.rows.filter (rowMatchesParams p)
    let total := matching.length
    if total = 0 then ⟨[], 0, none, none⟩
    else
      let sorted := sortRows sb ob matching
      let pageItems := (sorted.drop (CalculateOffset p)).take p.perPage.toNat
      if fl.findFails then ⟨[], total, some (.store 11), some (sb, ob)⟩
      else ⟨pageItems, total, none, some (sb, ob)⟩

/-- `GenericBaseRepository.GetAll` (base_repository.go:48-88): filters,
counts (short-circuiting on zero), validates sort column and direction,
orders, paginates, and fetches.  `allowed` is the repository's
`allowedSortColumns` configuration (default `["id", "created_at"]`, or
whatever `SetAllowedSortColumns` installed). -/
def GetAll (allowed : List String) (fl : QueryFaults) (st : Store)
    (p : ListParams) : GetAllOut :=
  getAllCore (effectiveSortBy allowed p.sortBy) (effectiveOrderBy p.orderBy)
    fl st p

/-- `GenericBaseRepository.GetCount` (base_repository.go:175-182): a bare
`Model(new(T)).Count` — no parameters, no name/status/type filters; only
the GORM soft-delete scope applies. -/
def GetCount (countFails : Bool) (st : Store) : Nat × Option RepoError :=
  if countFails then (0, some (.store 10))
  else ((st.rows.filter (fun r => !r.deletedAt)).length, none)

/-- Fault oracle for the single `Updates` statement issued by
`Update`/`BulkUpdate`: when `updatesError` is set the statement fails with
that store error, reports `errRowsAffected` affected rows, and leaves the
store unchanged. -/
structure UpdFaults where
  updatesError : Option Nat
  errRowsAffected : Nat
deriving Repr, DecidableEq

/-- Column write on a row, as performed by a SQL `UPDATE ... SET k = v`. -/
def setCol (r : Row) (k : String) (v : Val) : Row :=
  if k = "id" then
    match v with
    | .nat n => { r with id := n }
    | .str _ => r
  else { r with cols := setField r.cols k v }

/-- Application of a field map to a row: each listed column is written,
nothing else. -/
def applyData (r : Row) (m : FieldMap) : Row :=
  m.foldl (fun acc p => setCol acc p.1 p.2) r

/-- The row set affected by `Update`'s `WHERE id = ?` under the GORM
soft-delete scope. -/
def updTargets (st : Store) (id : Nat) : List Row :=
  st.rows.filter (fun r => r.id == id && !r.deletedAt)

/-- The `RowsAffected` reported by the `Updates` statement of `Update`. -/
def updRowsAffected (fl : UpdFaults) (st : Store) (id : Nat) : Nat :=
  match fl.updatesError with
  | some _ => fl.errRowsAffected
  | none => (updTargets st id).length

/-- Result of `Update`/`BulkUpdate`: final store, the field map as the
caller observes it after the call (Go maps are mutated in place), and the
returned error. -/
structure UpdOut where
  store : Store
  dataAfter : FieldMap
  err : Option RepoError
deriving Repr, DecidableEq

/-- `GenericBaseRepository.Update` (base_repository.go:107-116): stamps
`updated_by` into the caller's field map when `updatedBy > 0`, issues one
`Updates` statement scoped to `id`, returns NotFound when zero rows were
affected, and otherwise passes the statement's error through. -/
def Update (fl : UpdFaults) (st : Store) (id : Nat) (data : FieldMap)
    (updatedBy : Nat) : UpdOut :=
  let d := if 0 < updatedBy then setField data "updated_by" (.nat updatedBy)
           else data
  match fl.updatesError with
  | some code =>
    if fl.errRowsAffected = 0 then ⟨st, d, some .notFound⟩
    else ⟨st, d, some (.store code)⟩
  | none =>
    if (updTargets st id).length = 0 then ⟨st, d, some .notFound⟩
    else
      ⟨⟨st.rows.map (fun r =>
          if r.id == id && !r.deletedAt then applyData r d else r)⟩,
        d, none⟩

/-- `GenericBaseRepository.BulkUpdate` (base_repository.go:118-123): the
same `updated_by` stamping, one `Updates` statement scoped by the map
condition, no rows-affected check. -/
def BulkUpdate (fl : UpdFaults) (st : Store) (c : Cond) (data : FieldMap)
    (updatedBy : Nat) : UpdOut :=
  let d := if 0 < updatedBy then setField data "updated_by" (.nat updatedBy)
           else data
  match fl.updatesError with
  | some code => ⟨st, d, some (.store code)⟩
  | none =>
    ⟨⟨st.rows.map (fun r =>
        if !r.deletedAt && condMatches c r then applyData r d else r)⟩,
      d, none⟩

/-- Environment of one `AuthMiddleware` run (middlewares/auth.go:11-33):
whether `SessionStart` succeeds, what `GetUserIDFromSession` yields
(`none` models its error), and whether `GetUserProfile` succeeds. -/
structure MwEnv where
  sessionStartOk : Bool
  sessionUserId : Option Nat
  profileOk : Bool
deriving Repr, DecidableEq

/-- Observable outcome of a middleware/handler run: whether the server-side
session was destroyed, where the response redirects (none means the request
proceeds), and the `user_id` attached to the request context. -/
structure HandlerOut where
  destroyedSession : Bool
  redirect : Option String
  ctxUserId : Option Nat
deriving Repr, DecidableEq

/-- `AuthMiddleware` (middlewares/auth.go:11-33): resolve the session,
extract `user_id`, validate the profile; on profile failure destroy the
session; on success attach `user_id` to the request context. -/
def AuthMiddleware (e : MwEnv) : HandlerOut :=
  if !e.sessionStartOk then ⟨false, some "/auth/login", none⟩
  else
    match e.sessionUserId with
    | none => ⟨false, some "/auth/login", none⟩
    | some uid =>
      if !e.profileOk then ⟨true, some "/auth/login", none⟩
      else ⟨false, none, some uid⟩

/-- `AuthHandler.Logout` (auth_handler.go:160-176): destroy the session
when one could be resolved, then redirect to the login surface. -/
def Logout (sessionStartOk : Bool) : HandlerOut :=
  ⟨sessionStartOk, some "/auth/login", none⟩

/-- Service outcomes of `AuthService.UpdatePassword` as matched by the
handler. -/
inductive PwdErr where
  | currentIncorrect
  | tooShort
  | sameAsOld
  | userNotFound
  | other
deriving Repr, DecidableEq

/-- Environment of one `AuthHandler.UpdatePassword` run
(auth_handler.go:178-257). -/
structure PwdEnv where
  localsUserId : Option Nat
  sessionStartOk : Bool
  bodyParseOk : Bool
  currentPassword : String
  newPassword : String
  confirmPassword : String
  svcResult : Option PwdErr
deriving Repr, DecidableEq

/-- `AuthHandler.UpdatePassword` (auth_handler.go:178-257): missing locals
identity destroys the session and redirects to login; parse/validation
failures redirect to the profile page; a user-not-found service error and
the success path both destroy the session and redirect to login; other
service errors redirect to the profile page. -/
def UpdatePassword (e : PwdEnv) : HandlerOut :=
  match e.localsUserId with
  | none => ⟨e.sessionStartOk, some "/auth/login", none⟩
  | some _ =>
    if !e.bodyParseOk then ⟨false, some "/auth/profile", none⟩
    else if e.currentPassword == "" || e.newPassword == "" ||
        e.confirmPassword == "" then ⟨false, some "/auth/profile", none⟩
    else if e.newPassword != e.confirmPassword then
      ⟨false, some "/auth/profile", none⟩
    else
      match e.svcResult with
      | some .userNotFound => ⟨e.sessionStartOk, some "/auth/login", none⟩
      | some _ => ⟨false, some "/auth/profile", none⟩
      | none => ⟨e.sessionStartOk, some "/auth/login", none⟩

/-- A fault oracle under which every store write succeeds. -/
def noFaults : Faults := ⟨fun _ => false, fun _ => false, false⟩

/-- A fault oracle under which exactly the soft-delete write of row 2
fails. -/
def delFailAt2 : Faults := ⟨fun _ => false, fun i => i == 2, false⟩

/-- Sample rows and store used to evaluate the theorems on concrete
inputs. -/
def wRow1 : Row := ⟨1, [("name", .str "a"), ("status", .str "x")], false⟩

/-- Second sample row. -/
def wRow2 : Row := ⟨2, [("name", .str "b"), ("status", .str "y")], false⟩

/-- Third sample row. -/
def wRow3 : Row := ⟨3, [("name", .str "c"), ("status", .str "x")], false⟩

/-- Sample store holding the three sample rows. -/
def wStore : Store := ⟨[wRow1, wRow2, wRow3]⟩

/-- Sample listing parameters with the mixed-case direction "ASC". -/
def pCex : ListParams := ⟨"", "", "", "id", "ASC", 1, 10⟩

/-- Sample listing parameters with the mixed-case direction "DESC". -/
def pCex2 : ListParams := ⟨"", "", "", "id", "DESC", 1, 10⟩

/-- Sample listing parameters filtering on `status = "x"`. -/
def pStatusX : ListParams := ⟨"", "x", "", "id", "asc", 1, 10⟩

/-- Sample listing parameters with a sort column outside the allow-list. -/
def pBogus : ListParams := ⟨"", "", "", "bogus", "asc", 1, 10⟩

/-- Sample `UpdatePassword` environment: valid identity, well-formed
request, successful service call. -/
def pwdEnvW : PwdEnv := ⟨some 3, true, true, "a", "b", "b", none⟩

/-- Sample middleware environment: resolvable session, extractable
`user_id`, failing profile lookup. -/
def mwEnvW : MwEnv := ⟨true, some 3, false⟩

/-- Unfolding of `getField` on a cons cell. -/
theorem getField_cons (x : String × Val) (l : FieldMap) (k : String) :
    getField (x :: l) k = if x.1 == k then some x.2 else getField l k := by
  cases hx : (x.1 == k) <;> simp [getField, List.find?, hx]

/-- After `setField m k v`, reading `k` yields `v`. -/
theorem getField_setField_self (m : FieldMap) (k : String) (v : Val) :
    getField (setField m k v) k = some v := by
  unfold setField
  induction m with
  | nil => simp [getField_cons, getField]
  | cons a t ih =>
    cases ha : (a.1 == k) with
    | false => simpa [List.filter_cons, ha, getField_cons] using ih
    | true => simpa [List.filter_cons, ha] using ih

/-- After `setField m k v`, reading any other key is unchanged. -/
theorem getField_setField_ne (m : FieldMap) (k k' : String) (v : Val)
    (h : k' ≠ k) : getField (setField m k v) k' = getField m k' := by
  have hkk : (k == k') = false := by
    simp only [beq_eq_false_iff_ne, ne_eq]
    exact fun hh => h hh.symm
  unfold setField
  induction m with
  | nil => simp [getField_cons, getField, hkk]
  | cons a t ih =>
    cases ha : (a.1 == k) with
    | false => simp [List.filter_cons, ha, getField_cons, ih]
    | true =>
      have ha1 : a.1 = k := by simpa using ha
      have ha' : (a.1 == k') = false := by
        rw [ha1]; exact hkk
      simp [List.filter_cons, ha, getField_cons, ha', ih]

/-- `setCol` leaves every other column unchanged. -/
theorem getCol_setCol_ne (r : Row) (k k' : String) (v : Val) (h : k' ≠ k) :
    getCol (setCol r k v) k' = getCol r k' := by
  unfold getCol setCol
  by_cases h1 : k = "id"
  · have h2 : ¬ k' = "id" := h1 ▸ h
    cases v with
    | nat n => simp [h1, h2]
    | str s => simp [h1, h2]
  · by_cases h2 : k' = "id"
    · simp [h1, h2]
    · simp [h1, h2, getField_setField_ne r.cols k k' v h]

/-- `applyData` writes no column outside the keys of its field map. -/
theorem getCol_applyData_ne (r : Row) (m : FieldMap) (k : String)
    (h : k ∉ fieldKeys m) : getCol (applyData r m) k = getCol r k := by
  induction m generalizing r with
  | nil => rfl
  | cons a t ih =>
    have h1 : k ≠ a.1 := by
      intro hh
      exact h (by simp [fieldKeys, hh])
    have h2 : k ∉ fieldKeys t := by
      intro hh
      exact h (by simp [fieldKeys] at hh ⊢; exact Or.inr hh)
    have hstep : applyData r (a :: t) = applyData (setCol r a.1 a.2) t := rfl
    rw [hstep, ih (setCol r a.1 a.2) h2, getCol_setCol_ne r a.1 k a.2 h1]

/-- `find?` commutes with a map that preserves the predicate. -/
theorem find?_map_eq (l : List Row) (f : Row → Row) (p : Row → Bool)
    (hp : ∀ r, p (f r) = p r) :
    (l.map f).find? p = (l.find? p).map f := by
  induction l with
  | nil => rfl
  | cons a t ih =>
    cases hpa : p a with
    | false => simp [List.find?, hp a, hpa, ih]
    | true => simp [List.find?, hp a, hpa]

/-- `stampFn` preserves primary keys. -/
theorem stampFn_id (id A : Nat) (r : Row) : (stampFn id A r).id = r.id := by
  unfold stampFn
  split <;> rfl

/-- `stampFn` preserves the soft-delete marker. -/
theorem stampFn_deletedAt (id A : Nat) (r : Row) :
    (stampFn id A r).deletedAt = r.deletedAt := by
  unfold stampFn
  split <;> rfl

/-- `delFn` preserves primary keys. -/
theorem delFn_id (id : Nat) (r : Row) : (delFn id r).id = r.id := by
  unfold delFn
  split <;> rfl

/-- `rowById` through an id-preserving row map. -/
theorem rowById_map (st : Store) (f : Row → Row) (hf : ∀ r, (f r).id = r.id)
    (j : Nat) : rowById ⟨st.rows.map f⟩ j = (rowById st j).map f := by
  unfold rowById
  exact find?_map_eq _ _ _ (fun r => by simp [hf r])

/-- A stamp write leaves rows with other primary keys unchanged. -/
theorem rowById_stamp_ne (st : Store) (id A j : Nat) (h : j ≠ id) :
    rowById (stampRowById st id A) j = rowById st j := by
  rw [show stampRowById st id A = ⟨st.rows.map (stampFn id A)⟩ from rfl,
    rowById_map st _ (stampFn_id id A) j]
  cases hr : rowById st j with
  | none => rfl
  | some r =>
    have hrj : r.id = j := by simpa using List.find?_some hr
    have hne : (r.id == id) = false := by
      rw [hrj]
      exact beq_eq_false_iff_ne.mpr h
    simp [stampFn, hne]

/-- A soft-delete write leaves rows with other primary keys unchanged. -/
theorem rowById_del_ne (st : Store) (id j : Nat) (h : j ≠ id) :
    rowById (deleteRowById st id) j = rowById st j := by
  rw [show deleteRowById st id = ⟨st.rows.map (delFn id)⟩ from rfl,
    rowById_map st _ (delFn_id id) j]
  cases hr : rowById st j with
  | none => rfl
  | some r =>
    have hrj : r.id = j := by simpa using List.find?_some hr
    have hne : (r.id == id) = false := by
      rw [hrj]
      exact beq_eq_false_iff_ne.mpr h
    simp [delFn, hne]

/-- A stamp write rewrites the `deleted_by` column of its live target
row. -/
theorem rowById_stamp_self (st : Store) (id A : Nat) (r : Row)
    (h : rowById st id = some r) (hd : r.deletedAt = false) :
    rowById (stampRowById st id A) id =
      some { r with cols := setField r.cols "deleted_by" (.nat A) } := by
  rw [show stampRowById st id A = ⟨st.rows.map (stampFn id A)⟩ from rfl,
    rowById_map st _ (stampFn_id id A) id, h]
  have hh : st.rows.find? (fun x => x.id == id) = some r := h
  have hid0 := List.find?_some hh
  have hid : (r.id == id) = true := hid0
  simp [stampFn, hid, hd]

/-- A soft-delete write sets the marker of its live target row. -/
theorem rowById_del_self (st : Store) (id : Nat) (r : Row)
    (h : rowById st id = some r) (hd : r.deletedAt = false) :
    rowById (deleteRowById st id) id = some { r with deletedAt := true } := by
  rw [show deleteRowById st id = ⟨st.rows.map (delFn id)⟩ from rfl,
    rowById_map st _ (delFn_id id) id, h]
  have hh : st.rows.find? (fun x => x.id == id) = some r := h
  have hid0 := List.find?_some hh
  have hid : (r.id == id) = true := hid0
  simp [delFn, hid, hd]

/-- In a list of rows with pairwise-distinct ids, `find?` by a member's id
returns that member. -/
theorem find?_id_of_mem :
    ∀ (l : List Row), (l.map Row.id).Nodup →
      ∀ r ∈ l, l.find? (fun x => x.id == r.id) = some r := by
  intro l
  induction l with
  | nil => intro _ r hr; cases hr
  | cons a t ih =>
    intro hnd r hr
    have hnd' : (∀ x ∈ t, ¬ x.id = a.id) ∧ (List.map Row.id t).Nodup := by
      simpa using hnd
    rcases List.mem_cons.mp hr with h1 | h1
    · subst h1
      simp [List.find?]
    · have hne : (a.id == r.id) = false := by
        refine beq_eq_false_iff_ne.mpr ?_
        intro heq
        exact hnd'.1 r h1 heq.symm
      simp [List.find?, hne]
      exact ih hnd'.2 r h1

/-- Membership in a nodup-id store determines `rowById`. -/
theorem rowById_of_mem_nodup (st : Store)
    (hids : (st.rows.map Row.id).Nodup) (r : Row) (h : r ∈ st.rows) :
    rowById st r.id = some r :=
  find?_id_of_mem st.rows hids r h

/-- Rows returned by `findWhere` are live members of the store. -/
theorem mem_findWhere (st : Store) (c : Cond) (r : Row)
    (h : r ∈ findWhere st c) : r ∈ st.rows ∧ r.deletedAt = false := by
  unfold findWhere at h
  have h1 := List.mem_filter.mp h
  refine ⟨h1.1, ?_⟩
  have h2 := h1.2
  simp at h2
  exact h2.1

/-- `findWhere` preserves distinctness of ids. -/
theorem nodup_findWhere (st : Store) (c : Cond)
    (hids : (st.rows.map Row.id).Nodup) :
    ((findWhere st c).map Row.id).Nodup :=
  List.Nodup.sublist (List.Sublist.map Row.id (List.filter_sublist st.rows))
    hids

/-- Rows whose id is not targeted by the remaining loop are untouched by
`bulkLoop`. -/
theorem bulkLoop_frame (fl : Faults) (A : Nat) :
    ∀ (es : List Row) (st : Store) (j : Nat), j ∉ es.map Row.id →
      rowById (bulkLoop fl A st es).store j = rowById st j := by
  intro es
  induction es with
  | nil => intro st j _; rfl
  | cons e rest ih =>
    intro st j h
    have h12 : ¬ j = e.id ∧ j ∉ rest.map Row.id := by simpa using h
    cases hs : fl.stampFails e.id with
    | true => simp [bulkLoop, hs]
    | false =>
      cases hd : fl.deleteFails e.id with
      | true => simp [bulkLoop, hs, hd, rowById_stamp_ne st e.id A j h12.1]
      | false =>
        simp only [bulkLoop, hs, hd, Bool.false_eq_true, if_false]
        rw [ih _ _ h12.2, rowById_del_ne _ _ _ h12.1,
          rowById_stamp_ne _ _ _ _ h12.1]

/-- The stamp/soft-delete loop of `BulkDelete`, run over a row list that
splits as `pre ++ e :: post` where every write on `pre` succeeds and the
first write on `e` fails: the loop stops with `e`'s error, the `pre` rows
are stamped and soft-deleted, `e` is stamped only when its stamp write
succeeded, and the `post` rows are untouched. -/
theorem bulkLoop_first_error (fl : Faults) (A : Nat) :
    ∀ (pre : List Row) (st : Store) (e : Row) (post : List Row),
      (((pre ++ e :: post).map Row.id).Nodup) →
      (∀ r ∈ pre ++ e :: post, rowById st r.id = some r ∧ r.deletedAt = false) →
      (∀ r ∈ pre, fl.stampFails r.id = false ∧ fl.deleteFails r.id = false) →
      (fl.stampFails e.id = true ∨ fl.deleteFails e.id = true) →
      (bulkLoop fl A st (pre ++ e :: post)).err =
        some (.store (if fl.stampFails e.id then 0 else 1)) ∧
      (∀ r ∈ pre, rowById (bulkLoop fl A st (pre ++ e :: post)).store r.id =
        some { r with cols := setField r.cols "deleted_by" (.nat A), deletedAt := true }) ∧
      rowById (bulkLoop fl A st (pre ++ e :: post)).store e.id =
        some (if fl.stampFails e.id then e
              else { e with cols := setField e.cols "deleted_by" (.nat A) }) ∧
      (∀ r ∈ post, rowById (bulkLoop fl A st (pre ++ e :: post)).store r.id =
        some r) := by
  intro pre
  induction pre with
  | nil =>
    intro st e post hnd hrows hpre hfail
    simp only [List.nil_append] at *
    have he := hrows e (List.mem_cons_self e post)
    have hnd' : (∀ x ∈ post, ¬ x.id = e.id) ∧ (post.map Row.id).Nodup := by
      simpa using hnd
    cases hs : fl.stampFails e.id with
    | true =>
      refine ⟨by simp [bulkLoop, hs], by simp, ?_, ?_⟩
      · simp [bulkLoop, hs, he.1]
      · intro r hr
        simp only [bulkLoop, hs, if_true]
        exact (hrows r (List.mem_cons_of_mem _ hr)).1
    | false =>
      have hd : fl.deleteFails e.id = true := by
        rcases hfail with hf | hf
        · rw [hs] at hf; exact absurd hf (by simp)
        · exact hf
      refine ⟨by simp [bulkLoop, hs, hd], by simp, ?_, ?_⟩
      · simp only [bulkLoop, hs, hd, Bool.false_eq_true, if_false, if_true]
        rw [rowById_stamp_self st e.id A e he.1 he.2]
      · intro r hr
        have hner : r.id ≠ e.id := hnd'.1 r hr
        simp only [bulkLoop, hs, hd, Bool.false_eq_true, if_false, if_true]
        rw [rowById_stamp_ne st e.id A r.id hner]
        exact (hrows r (List.mem_cons_of_mem _ hr)).1
  | cons h pre' ih =>
    intro st e post hnd hrows hpre hfail
    have hh := hrows h (by simp)
    have hhf := hpre h (by simp)
    have hnd0 : ((∀ x ∈ pre', ¬ x.id = h.id) ∧ ¬ h.id = e.id ∧
        ∀ x ∈ post, ¬ x.id = h.id) ∧
        (List.map Row.id pre' ++ e.id :: List.map Row.id post).Nodup := by
      simpa using hnd
    have hne0 : ∀ r ∈ pre' ++ e :: post, ¬ r.id = h.id := by
      intro r hr
      rcases List.mem_append.mp hr with h1 | h1
      · exact hnd0.1.1 r h1
      · rcases List.mem_cons.mp h1 with h2 | h2
        · subst h2
          exact fun heq => hnd0.1.2.1 heq.symm
        · exact hnd0.1.2.2 r h2
    have hnd2 : ((pre' ++ e :: post).map Row.id).Nodup := by
      simpa using hnd0.2
    have hnotin : h.id ∉ (pre' ++ e :: post).map Row.id := by
      intro hmem
      rcases List.mem_map.mp hmem with ⟨x, hx, hxid⟩
      exact hne0 x hx hxid
    have hrows2 : ∀ r ∈ pre' ++ e :: post,
        rowById (deleteRowById (stampRowById st h.id A) h.id) r.id = some r ∧
        r.deletedAt = false := by
      intro r hr
      have hner : r.id ≠ h.id := hne0 r hr
      rw [rowById_del_ne _ _ _ hner, rowById_stamp_ne _ _ _ _ hner]
      exact hrows r (List.mem_cons_of_mem _ hr)
    have hpre2 : ∀ r ∈ pre', fl.stampFails r.id = false ∧
        fl.deleteFails r.id = false :=
      fun r hr => hpre r (List.mem_cons_of_mem _ hr)
    have IH := ih (deleteRowById (stampRowById st h.id A) h.id) e post
      hnd2 hrows2 hpre2 hfail
    have hstep : bulkLoop fl A st ((h :: pre') ++ e :: post) =
        ⟨(bulkLoop fl A (deleteRowById (stampRowById st h.id A) h.id)
            (pre' ++ e :: post)).store,
          .stamp h.id A :: .del h.id ::
            (bulkLoop fl A (deleteRowById (stampRowById st h.id A) h.id)
              (pre' ++ e :: post)).ops,
          (bulkLoop fl A (deleteRowById (stampRowById st h.id A) h.id)
            (pre' ++ e :: post)).err⟩ := by
      simp [bulkLoop, hhf.1, hhf.2]
    rw [hstep]
    refine ⟨IH.1, ?_, IH.2.2.1, IH.2.2.2⟩
    intro r hr
    rcases List.mem_cons.mp hr with h1 | h1
    · subst h1
      show rowById (bulkLoop fl A (deleteRowById (stampRowById st r.id A) r.id)
        (pre' ++ e :: post)).store r.id = _
      rw [bulkLoop_frame fl A _ _ r.id hnotin]
      have s1 := rowById_stamp_self st r.id A r hh.1 hh.2
      have s2 := rowById_del_self (stampRowById st r.id A) r.id _ s1 hh.2
      exact s2
    · exact IH.2.1 r h1

/-- C1: a `Delete` or `BulkDelete` call whose context does not carry a
valid non-zero actor identifier under the `user_id` key fails with the
context-missing (MissingActor) error and performs no store operation of any
kind — no load, no stamp, no delete: the store is returned unchanged and
the operation trace is empty. -/
theorem delete_missing_actor_no_write (fl : Faults) (st : Store)
    (ctx : Option Nat) (id : Nat) (c : Cond)
    (h : ctx = none ∨ ctx = some 0) :
    Delete fl st ctx id = ⟨st, [], some .missingActor⟩ ∧
    BulkDelete fl st ctx c = ⟨st, [], some .missingActor⟩ := by
  rcases h with h | h <;> subst h <;> exact ⟨rfl, rfl⟩

/-- Witness for C1: concrete invalid-actor calls on the sample store. -/
theorem delete_missing_actor_no_write_witness :
    ((some 0 : Option Nat) = none ∨ (some 0 : Option Nat) = some 0) ∧
    Delete noFaults wStore (some 0) 1 = ⟨wStore, [], some .missingActor⟩ ∧
    BulkDelete noFaults wStore (some 0) [] =
      ⟨wStore, [], some .missingActor⟩ :=
  ⟨Or.inr rfl,
    (delete_missing_actor_no_write noFaults wStore (some 0) 1 []
      (Or.inr rfl)).1,
    (delete_missing_actor_no_write noFaults wStore (some 0) 1 []
      (Or.inr rfl)).2⟩

/-- C2: with a valid actor, `Delete` first loads the row — failing with
NotFound, leaving the store unchanged and issuing no write when the row is
absent — and the soft-delete write appears in the trace only as the last
operation of the full `load, stamp, delete` sequence, and only when the
preceding `deleted_by` stamp write did not fail. -/
theorem delete_load_stamp_delete_order (fl : Faults) (st : Store)
    (A id : Nat) (hA : 0 < A) :
    (Delete fl st (some A) id).ops.head? = some (Op.load id) ∧
    (firstRow st id = none →
      Delete fl st (some A) id = ⟨st, [Op.load id], some .notFound⟩) ∧
    (Op.del id ∈ (Delete fl st (some A) id).ops →
      fl.stampFails id = false ∧
      (Delete fl st (some A) id).ops =
        [Op.load id, Op.stamp id A, Op.del id]) := by
  have hA0 : (A == 0) = false := by
    refine beq_eq_false_iff_ne.mpr ?_
    omega
  cases hfr : firstRow st id with
  | none => simp [Delete, hA0, hfr]
  | some r =>
    cases hs : fl.stampFails id with
    | true => simp [Delete, hA0, hfr, hs]
    | false =>
      cases hd : fl.deleteFails id with
      | true => simp [Delete, hA0, hfr, hs, hd]
      | false => simp [Delete, hA0, hfr, hs, hd]

/-- Witness for C2: a concrete successful delete on the sample store. -/
theorem delete_load_stamp_delete_order_witness :
    0 < 7 ∧
    ((Delete noFaults wStore (some 7) 1).ops.head? = some (Op.load 1) ∧
    (firstRow wStore 1 = none →
      Delete noFaults wStore (some 7) 1 = ⟨wStore, [Op.load 1], some .notFound⟩) ∧
    (Op.del 1 ∈ (Delete noFaults wStore (some 7) 1).ops →
      noFaults.stampFails 1 = false ∧
      (Delete noFaults wStore (some 7) 1).ops =
        [Op.load 1, Op.stamp 1 7, Op.del 1])) :=
  ⟨by decide, delete_load_stamp_delete_order noFaults wStore 7 1 (by decide)⟩

/-- C3: after a successful `Delete` of row `id` by actor `A`, a subsequent
`GetByID id` fails with NotFound, while the row still physically exists in
storage with `deleted_by = A` and the soft-delete marker set; no row is
ever removed from storage (the core never hard-deletes). -/
theorem delete_soft_delete_invariant (fl : Faults) (st : Store) (A id : Nat)
    (hA : 0 < A) (hsucc : (Delete fl st (some A) id).err = none) :
    GetByID (Delete fl st (some A) id).store id = .error .notFound ∧
    (∃ r ∈ (Delete fl st (some A) id).store.rows,
      r.id = id ∧ getCol r "deleted_by" = some (.nat A) ∧
      r.deletedAt = true) ∧
    (Delete fl st (some A) id).store.rows.length = st.rows.length := by
  have hA0 : (A == 0) = false := by
    refine beq_eq_false_iff_ne.mpr ?_
    omega
  cases hfr : firstRow st id with
  | none => simp [Delete, hA0, hfr] at hsucc
  | some r0 =>
    cases hs : fl.stampFails id with
    | true => simp [Delete, hA0, hfr, hs] at hsucc
    | false =>
      cases hd : fl.deleteFails id with
      | true => simp [Delete, hA0, hfr, hs, hd] at hsucc
      | false =>
        have hstore : (Delete fl st (some A) id).store =
            deleteRowById (stampRowById st id A) id := by
          simp [Delete, hA0, hfr, hs, hd]
        rw [hstore]
        have hfs : st.rows.find? (fun x => x.id == id && !x.deletedAt) =
            some r0 := hfr
        have hp0 := List.find?_some hfs
        have hp : (r0.id == id && !r0.deletedAt) = true := hp0
        have h12 : r0.id = id ∧ r0.deletedAt = false := by simpa using hp
        have hid : r0.id = id := h12.1
        have hdel : r0.deletedAt = false := h12.2
        have h1 : (r0.id == id) = true := by simp [hid]
        have hmem := List.mem_of_find?_eq_some hfs
        have himg : delFn id (stampFn id A r0) =
            { r0 with cols := setField r0.cols "deleted_by" (.nat A), deletedAt := true } := by
          simp [stampFn, delFn, h1, hdel]
        refine ⟨?_, ?_, ?_⟩
        · unfold GetByID
          have hnone : firstRow (deleteRowById (stampRowById st id A) id) id =
              none := by
            unfold firstRow deleteRowById stampRowById
            rw [List.find?_eq_none]
            intro x hx
            rcases List.mem_map.mp hx with ⟨y, hy, rfl⟩
            rcases List.mem_map.mp hy with ⟨z, hz, rfl⟩
            cases hzid : (z.id == id) with
            | false => simp [stampFn, delFn, hzid]
            | true =>
              cases hzd : z.deletedAt with
              | false => simp [stampFn, delFn, hzid, hzd]
              | true => simp [stampFn, delFn, hzid, hzd]
          rw [hnone]
        · refine ⟨delFn id (stampFn id A r0), ?_, ?_, ?_, ?_⟩
          · exact List.mem_map_of_mem _ (List.mem_map_of_mem _ hmem)
          · rw [delFn_id, stampFn_id, hid]
          · rw [himg]
            show getCol _ "deleted_by" = some (.nat A)
            unfold getCol
            rw [if_neg (by decide)]
            exact getField_setField_self _ _ _
          · rw [himg]
        · show ((st.rows.map _).map _).length = st.rows.length
          simp

/-- Witness for C3: a concrete successful delete on the sample store. -/
theorem delete_soft_delete_invariant_witness :
    (0 < 7 ∧ (Delete noFaults wStore (some 7) 1).err = none) ∧
    (GetByID (Delete noFaults wStore (some 7) 1).store 1 =
      .error .notFound ∧
    (∃ r ∈ (Delete noFaults wStore (some 7) 1).store.rows,
      r.id = 1 ∧ getCol r "deleted_by" = some (.nat 7) ∧
      r.deletedAt = true) ∧
    (Delete noFaults wStore (some 7) 1).store.rows.length =
      wStore.rows.length) :=
  ⟨⟨by decide, by decide⟩,
    delete_soft_delete_invariant noFaults wStore 7 1 (by decide) (by decide)⟩

/-- The ORDER BY pair reported by `getAllCore` is exactly the effective
column/direction it was given. -/
theorem getAllCore_orderUsed (sb ob : String) (fl : QueryFaults)
    (st : Store) (p : ListParams) (cd : String × String)
    (h : (getAllCore sb ob fl st p).orderUsed = some cd) :
    cd.1 = sb ∧ cd.2 = ob := by
  unfold getAllCore at h
  cases hc : fl.countFails with
  | true => rw [hc] at h; simp at h
  | false =>
    rw [hc] at h
    simp only [Bool.false_eq_true, if_false] at h
    split at h
    · simp at h
    · cases hf : fl.findFails with
      | true =>
        rw [hf] at h
        simp only [if_true] at h
        have := Option.some.inj h
        rw [← this]
        exact ⟨rfl, rfl⟩
      | false =>
        rw [hf] at h
        simp only [Bool.false_eq_true, if_false] at h
        have := Option.some.inj h
        rw [← this]
        exact ⟨rfl, rfl⟩

/-- C4: when a stamp or soft-delete write of `BulkDelete` fails
mid-sequence, the call stops and returns that first error; every row before
the failing one is fully stamped and soft-deleted, the failing row is at
most stamped (stamped exactly when its stamp write succeeded, never
soft-deleted), and every row after it is completely untouched. -/
theorem bulkDelete_stops_at_first_error (fl : Faults) (st : Store) (A : Nat)
    (c : Cond) (pre : List Row) (e : Row) (post : List Row)
    (hA : 0 < A) (hff : fl.findFails = false)
    (hids : (st.rows.map Row.id).Nodup)
    (hsplit : findWhere st c = pre ++ e :: post)
    (hpre : ∀ r ∈ pre, fl.stampFails r.id = false ∧
      fl.deleteFails r.id = false)
    (hfail : fl.stampFails e.id = true ∨ fl.deleteFails e.id = true) :
    (BulkDelete fl st (some A) c).err =
      some (.store (if fl.stampFails e.id then 0 else 1)) ∧
    (∀ r ∈ pre, rowById (BulkDelete fl st (some A) c).store r.id =
      some { r with cols := setField r.cols "deleted_by" (.nat A), deletedAt := true }) ∧
    rowById (BulkDelete fl st (some A) c).store e.id =
      some (if fl.stampFails e.id then e
            else { e with cols := setField e.cols "deleted_by" (.nat A) }) ∧
    (∀ r ∈ post, rowById (BulkDelete fl st (some A) c).store r.id =
      some r) := by
  have hA0 : (A == 0) = false := by
    refine beq_eq_false_iff_ne.mpr ?_
    omega
  have hout : BulkDelete fl st (some A) c =
      ⟨(bulkLoop fl A st (findWhere st c)).store,
        .findWhere :: (bulkLoop fl A st (findWhere st c)).ops,
        (bulkLoop fl A st (findWhere st c)).err⟩ := by
    simp [BulkDelete, hA0, hff]
  have hnd : ((pre ++ e :: post).map Row.id).Nodup := by
    rw [← hsplit]
    exact nodup_findWhere st c hids
  have hrows : ∀ r ∈ pre ++ e :: post,
      rowById st r.id = some r ∧ r.deletedAt = false := by
    intro r hr
    rw [← hsplit] at hr
    have h2 := mem_findWhere st c r hr
    exact ⟨rowById_of_mem_nodup st hids r h2.1, h2.2⟩
  have main := bulkLoop_first_error fl A pre st e post hnd hrows hpre hfail
  rw [hout, hsplit]
  exact ⟨main.1, main.2.1, main.2.2.1, main.2.2.2⟩

/-- Witness for C4: bulk-deleting the three sample rows with the
soft-delete write of row 2 failing. -/
theorem bulkDelete_stops_at_first_error_witness :
    (0 < 7 ∧ delFailAt2.findFails = false ∧
      (wStore.rows.map Row.id).Nodup ∧
      findWhere wStore [] = [wRow1] ++ wRow2 :: [wRow3] ∧
      (∀ r ∈ [wRow1], delFailAt2.stampFails r.id = false ∧
        delFailAt2.deleteFails r.id = false) ∧
      (delFailAt2.stampFails wRow2.id = true ∨
        delFailAt2.deleteFails wRow2.id = true)) ∧
    ((BulkDelete delFailAt2 wStore (some 7) []).err =
      some (.store (if delFailAt2.stampFails wRow2.id then 0 else 1)) ∧
    (∀ r ∈ [wRow1],
      rowById (BulkDelete delFailAt2 wStore (some 7) []).store r.id =
        some { r with cols := setField r.cols "deleted_by" (.nat 7), deletedAt := true }) ∧
    rowById (BulkDelete delFailAt2 wStore (some 7) []).store wRow2.id =
      some (if delFailAt2.stampFails wRow2.id then wRow2
            else { wRow2 with cols := setField wRow2.cols "deleted_by" (.nat 7) }) ∧
    (∀ r ∈ [wRow3],
      rowById (BulkDelete delFailAt2 wStore (some 7) []).store r.id =
        some r)) :=
  ⟨⟨by decide, by decide, by decide, by decide, by decide, by decide⟩,
    bulkDelete_stops_at_first_error delFailAt2 wStore 7 [] [wRow1] wRow2
      [wRow3] (by decide) (by decide) (by decide) (by decide) (by decide)
      (by decide)⟩

/-- C5: a `ListParams` whose `sortBy` is outside the repository's
allow-list makes `GetAll` behave exactly as if the default sort column had
been requested — same items, same total, same (absence of) error — and any
ORDER BY it builds uses the default column, never the invalid one. -/
theorem getAll_invalid_sortBy_uses_default (allowed : List String)
    (fl : QueryFaults) (st : Store) (p : ListParams)
    (h : allowed.contains p.sortBy = false) :
    GetAll allowed fl st p =
      GetAll allowed fl st { p with sortBy := DefaultSortBy } ∧
    (∀ cd : String × String,
      (GetAll allowed fl st p).orderUsed = some cd →
      cd.1 = DefaultSortBy) := by
  have h1 : effectiveSortBy allowed p.sortBy = DefaultSortBy := by
    unfold effectiveSortBy
    rw [h]
    simp
  have h2 : effectiveSortBy allowed DefaultSortBy = DefaultSortBy := by
    unfold effectiveSortBy
    split <;> rfl
  have e2 : GetAll allowed fl st p =
      getAllCore (effectiveSortBy allowed p.sortBy)
        (effectiveOrderBy p.orderBy) fl st p := rfl
  have e1 : GetAll allowed fl st { p with sortBy := DefaultSortBy } =
      getAllCore (effectiveSortBy allowed DefaultSortBy)
        (effectiveOrderBy p.orderBy) fl st p := rfl
  constructor
  · rw [e1, e2, h1, h2]
  · intro cd hcd
    rw [e2, h1] at hcd
    exact (getAllCore_orderUsed _ _ _ _ _ _ hcd).1

/-- Witness for C5: the sort column "bogus" against the allow-list
`["id"]`. -/
theorem getAll_invalid_sortBy_uses_default_witness :
    (["id"].contains pBogus.sortBy = false) ∧
    (GetAll ["id"] ⟨false, false⟩ wStore pBogus =
      GetAll ["id"] ⟨false, false⟩ wStore
        { pBogus with sortBy := DefaultSortBy } ∧
    (∀ cd : String × String,
      (GetAll ["id"] ⟨false, false⟩ wStore pBogus).orderUsed = some cd →
      cd.1 = DefaultSortBy)) :=
  ⟨by decide,
    getAll_invalid_sortBy_uses_default ["id"] ⟨false, false⟩ wStore pBogus
      (by decide)⟩

/-- C6 counterexample: `GetAll` lowercases `orderBy` before validating it,
so the mixed-case values "ASC" and "DESC" — neither of which is exactly
"asc" or exactly "desc" — are applied as the directions "asc" and "desc"
respectively.  Since those two applied directions differ, whichever single
fixed default direction the parameters package uses, at least one of these
two inputs has its requested direction applied rather than replaced by the
default; in particular "asc" differs from the modelled default. -/
theorem getAll_orderBy_not_exact_cex :
    pCex.orderBy = "ASC" ∧ pCex.orderBy ≠ "asc" ∧ pCex.orderBy ≠ "desc" ∧
    pCex2.orderBy = "DESC" ∧ pCex2.orderBy ≠ "asc" ∧
    pCex2.orderBy ≠ "desc" ∧
    (GetAll ["id"] ⟨false, false⟩ wStore pCex).orderUsed =
      some ("id", "asc") ∧
    (GetAll ["id"] ⟨false, false⟩ wStore pCex2).orderUsed =
      some ("id", "desc") ∧
    ("asc" : String) ≠ "desc" ∧
    "asc" ≠ DefaultOrderBy := by decide

/-- C6 amended: `GetAll` applies the requested sort direction exactly when
the lowercased `orderBy` is "asc" or "desc" (mixed-case spellings are
accepted); any other value is replaced by the default direction. -/
theorem getAll_orderBy_lowercase_default (allowed : List String)
    (fl : QueryFaults) (st : Store) (p : ListParams) (cd : String × String)
    (h : (GetAll allowed fl st p).orderUsed = some cd) :
    cd.2 = if goToLower p.orderBy = "asc" ∨ goToLower p.orderBy = "desc"
           then goToLower p.orderBy else DefaultOrderBy := by
  have e2 : GetAll allowed fl st p =
      getAllCore (effectiveSortBy allowed p.sortBy)
        (effectiveOrderBy p.orderBy) fl st p := rfl
  rw [e2] at h
  have h2 := (getAllCore_orderUsed _ _ _ _ _ _ h).2
  rw [h2]
  unfold effectiveOrderBy
  by_cases ha : goToLower p.orderBy = "asc"
  · simp [ha]
  · by_cases hd : goToLower p.orderBy = "desc"
    · simp [ha, hd]
    · simp [ha, hd]

/-- Witness for C6 (amended): the direction "ASC" is applied as "asc". -/
theorem getAll_orderBy_lowercase_default_witness :
    ((GetAll ["id"] ⟨false, false⟩ wStore pCex).orderUsed =
      some ("id", "asc")) ∧
    ("id", "asc").2 =
      (if goToLower pCex.orderBy = "asc" ∨ goToLower pCex.orderBy = "desc"
       then goToLower pCex.orderBy else DefaultOrderBy) :=
  ⟨by decide,
    getAll_orderBy_lowercase_default ["id"] ⟨false, false⟩ wStore pCex
      ("id", "asc") (by decide)⟩

/-- C7: the implementation of `GetCount` takes no parameters and applies
none of `GetAll`'s name/status/type filters (contradicting the `Repository`
interface, which declares `GetCount(params ListParams)`): with the status
filter "x" over the three-row sample store, `GetAll` reports a total of 2
matching rows while `GetCount` reports 3 and no error. -/
theorem getCount_ignores_filters :
    (GetAll ["id"] ⟨false, false⟩ wStore pStatusX).total = 2 ∧
    (GetCount false wStore).1 = 3 ∧
    (GetCount false wStore).2 = none := by decide

/-- A map whose condition is everywhere false is the identity. -/
theorem map_ite_id (l : List Row) (p : Row → Bool) (f : Row → Row)
    (h : ∀ r ∈ l, p r = false) :
    l.map (fun r => if p r then f r else r) = l := by
  induction l with
  | nil => rfl
  | cons a t ih =>
    have ha := h a (by simp)
    simp [List.map_cons, ha, ih (fun r hr => h r (List.mem_cons_of_mem _ hr))]

/-- Every login-redirecting exit of `UpdatePassword` destroys the session
exactly when the session store was reachable. -/
theorem updatePassword_login_destroys (e : PwdEnv) :
    (UpdatePassword e).redirect = some "/auth/login" →
    (UpdatePassword e).destroyedSession = e.sessionStartOk := by
  unfold UpdatePassword
  cases hl : e.localsUserId with
  | none => intro _; rfl
  | some uid =>
    cases hb : e.bodyParseOk with
    | false => intro hx; exact absurd (Option.some.inj hx) (by decide)
    | true =>
      cases hc : (e.currentPassword == "" || e.newPassword == "" ||
          e.confirmPassword == "") with
      | true => intro hx; exact absurd (Option.some.inj hx) (by decide)
      | false =>
        cases hn : (e.newPassword != e.confirmPassword) with
        | true => intro hx; exact absurd (Option.some.inj hx) (by decide)
        | false =>
          cases hsv : e.svcResult with
          | none => intro _; rfl
          | some pe =>
            cases pe with
            | userNotFound => intro _; rfl
            | currentIncorrect =>
              intro hx; exact absurd (Option.some.inj hx) (by decide)
            | tooShort =>
              intro hx; exact absurd (Option.some.inj hx) (by decide)
            | sameAsOld =>
              intro hx; exact absurd (Option.some.inj hx) (by decide)
            | other =>
              intro hx; exact absurd (Option.some.inj hx) (by decide)

/-- C8 counterexample: with a resolvable session whose `user_id` claim
fails to extract, `AuthMiddleware` redirects to the login surface without
destroying the session — an exit path that leaves the session alive,
contradicting the claim that every exit destroys the session. -/
theorem authMiddleware_no_destroy_cex :
    (AuthMiddleware ⟨true, none, true⟩).redirect = some "/auth/login" ∧
    (AuthMiddleware ⟨true, none, true⟩).destroyedSession = false := by
  decide

/-- C8 amended: whenever the session store is reachable, `Logout`, every
login-redirecting exit of `UpdatePassword` (missing identity,
user-not-found, successful password change), and `AuthMiddleware`'s
profile-lookup failure all destroy the server-side session before
redirecting to the login surface; the one exception the code leaves open is
`AuthMiddleware`'s `user_id`-extraction failure, which redirects without
destroying. -/
theorem auth_exits_destroy_session (sOk : Bool) (ep : PwdEnv) (em : MwEnv)
    (h1 : sOk = true) (h2 : ep.sessionStartOk = true)
    (h3 : em.sessionStartOk = true) :
    (Logout sOk).destroyedSession = true ∧
    (Logout sOk).redirect = some "/auth/login" ∧
    ((UpdatePassword ep).redirect = some "/auth/login" →
      (UpdatePassword ep).destroyedSession = true) ∧
    (em.sessionUserId ≠ none → em.profileOk = false →
      (AuthMiddleware em).destroyedSession = true ∧
      (AuthMiddleware em).redirect = some "/auth/login") := by
  refine ⟨by rw [show (Logout sOk).destroyedSession = sOk from rfl, h1],
    rfl, ?_, ?_⟩
  · intro hx
    rw [updatePassword_login_destroys ep hx, h2]
  · intro hu hp
    cases hse : em.sessionUserId with
    | none => exact absurd hse hu
    | some uid =>
      constructor
      · simp [AuthMiddleware, h3, hse, hp]
      · simp [AuthMiddleware, h3, hse, hp]

/-- Witness for C8 (amended): concrete logout, password-change and
middleware environments. -/
theorem auth_exits_destroy_session_witness :
    (true = true ∧ pwdEnvW.sessionStartOk = true ∧
      mwEnvW.sessionStartOk = true) ∧
    ((Logout true).destroyedSession = true ∧
     (Logout true).redirect = some "/auth/login" ∧
     ((UpdatePassword pwdEnvW).redirect = some "/auth/login" →
       (UpdatePassword pwdEnvW).destroyedSession = true) ∧
     (mwEnvW.sessionUserId ≠ none → mwEnvW.profileOk = false →
       (AuthMiddleware mwEnvW).destroyedSession = true ∧
       (AuthMiddleware mwEnvW).redirect = some "/auth/login")) :=
  ⟨⟨rfl, by decide, by decide⟩,
    auth_exits_destroy_session true pwdEnvW mwEnvW rfl (by decide)
      (by decide)⟩

/-- C9: with a positive actor id, `Update` and `BulkUpdate` mutate the
caller-supplied field map in place by binding `updated_by` to the actor id
— the caller observes the augmented map after the call — the single store
write is issued with exactly that augmented map, and columns outside the
augmented map are not written. -/
theorem update_stamps_updated_by (flU : UpdFaults) (st : Store) (id : Nat)
    (c : Cond) (data : FieldMap) (A : Nat) (hA : 0 < A) :
    (Update flU st id data A).dataAfter =
      setField data "updated_by" (.nat A) ∧
    getField ((Update flU st id data A).dataAfter) "updated_by" =
      some (.nat A) ∧
    (BulkUpdate flU st c data A).dataAfter =
      setField data "updated_by" (.nat A) ∧
    (flU.updatesError = none →
      (Update flU st id data A).store =
        ⟨st.rows.map (fun r =>
          if r.id == id && !r.deletedAt
          then applyData r (setField data "updated_by" (.nat A)) else r)⟩ ∧
      (BulkUpdate flU st c data A).store =
        ⟨st.rows.map (fun r =>
          if !r.deletedAt && condMatches c r
          then applyData r (setField data "updated_by" (.nat A)) else r)⟩) ∧
    (∀ (r : Row) (k : String),
      k ∉ fieldKeys (setField data "updated_by" (.nat A)) →
      getCol (applyData r (setField data "updated_by" (.nat A))) k =
        getCol r k) := by
  have hd : (if 0 < A then setField data "updated_by" (.nat A) else data) =
      setField data "updated_by" (.nat A) := if_pos hA
  have hdataU : (Update flU st id data A).dataAfter =
      setField data "updated_by" (.nat A) := by
    unfold Update
    cases hE : flU.updatesError with
    | some code => by_cases hz : flU.errRowsAffected = 0 <;> simp [hz, hd]
    | none => by_cases hz : (updTargets st id).length = 0 <;> simp [hz, hd]
  have hdataB : (BulkUpdate flU st c data A).dataAfter =
      setField data "updated_by" (.nat A) := by
    unfold BulkUpdate
    cases hE : flU.updatesError with
    | some code => simp [hd]
    | none => simp [hd]
  refine ⟨hdataU, ?_, hdataB, ?_, ?_⟩
  · rw [hdataU]
    exact getField_setField_self _ _ _
  · intro hE
    constructor
    · by_cases hz : (updTargets st id).length = 0
      · have hnil : updTargets st id = [] := List.length_eq_zero.mp hz
        have hall : ∀ r ∈ st.rows,
            (r.id == id && !r.deletedAt) = false := by
          intro r hr
          cases hbv : (r.id == id && !r.deletedAt) with
          | false => rfl
          | true =>
            have hmem : r ∈ updTargets st id :=
              List.mem_filter.mpr ⟨hr, hbv⟩
            rw [hnil] at hmem
            cases hmem
        have hmap := map_ite_id st.rows
          (fun r => r.id == id && !r.deletedAt)
          (fun r => applyData r (setField data "updated_by" (.nat A))) hall
        have hst : (Update flU st id data A).store = st := by
          unfold Update
          simp [hE, hz]
        rw [hst]
        exact (congrArg Store.mk hmap).symm
      · unfold Update
        simp [hE, hz, hd]
    · unfold BulkUpdate
      simp [hE, hd]
  · intro r k hk
    exact getCol_applyData_ne r _ k hk

/-- Witness for C9: a concrete update stamping actor 7 on the sample
store. -/
theorem update_stamps_updated_by_witness :
    0 < 7 ∧
    ((Update ⟨none, 0⟩ wStore 1 [("status", .str "done")] 7).dataAfter =
      setField [("status", .str "done")] "updated_by" (.nat 7) ∧
    getField ((Update ⟨none, 0⟩ wStore 1
        [("status", .str "done")] 7).dataAfter) "updated_by" =
      some (.nat 7) ∧
    (BulkUpdate ⟨none, 0⟩ wStore [("status", .str "x")]
        [("status", .str "done")] 7).dataAfter =
      setField [("status", .str "done")] "updated_by" (.nat 7) ∧
    ((⟨none, 0⟩ : UpdFaults).updatesError = none →
      (Update ⟨none, 0⟩ wStore 1 [("status", .str "done")] 7).store =
        ⟨wStore.rows.map (fun r =>
          if r.id == 1 && !r.deletedAt
          then applyData r
            (setField [("status", .str "done")] "updated_by" (.nat 7))
          else r)⟩ ∧
      (BulkUpdate ⟨none, 0⟩ wStore [("status", .str "x")]
          [("status", .str "done")] 7).store =
        ⟨wStore.rows.map (fun r =>
          if !r.deletedAt && condMatches [("status", .str "x")] r
          then applyData r
            (setField [("status", .str "done")] "updated_by" (.nat 7))
          else r)⟩) ∧
    (∀ (r : Row) (k : String),
      k ∉ fieldKeys
        (setField [("status", .str "done")] "updated_by" (.nat 7)) →
      getCol (applyData r
        (setField [("status", .str "done")] "updated_by" (.nat 7))) k =
        getCol r k)) :=
  ⟨by decide,
    update_stamps_updated_by ⟨none, 0⟩ wStore 1 [("status", .str "x")]
      [("status", .str "done")] 7 (by decide)⟩

/-- C10: whenever the `Updates` statement of `Update` reports zero affected
rows, `Update` returns the NotFound error — even when the store reported a
different error of its own for that write, in which case the store's error
is discarded and never surfaced to the caller. -/
theorem update_zero_rows_notFound (flU : UpdFaults) (st : Store) (id : Nat)
    (data : FieldMap) (A : Nat)
    (h : updRowsAffected flU st id = 0) :
    (Update flU st id data A).err = some .notFound := by
  unfold updRowsAffected at h
  unfold Update
  cases hE : flU.updatesError with
  | some code =>
    rw [hE] at h
    have h2 : flU.errRowsAffected = 0 := h
    simp [h2]
  | none =>
    rw [hE] at h
    have h2 : (updTargets st id).length = 0 := h
    have h3 : updTargets st id = [] := List.length_eq_zero.mp h2
    simp [h3]

/-- Witness for C10: the store reports error code 5 with zero affected
rows, and `Update` surfaces NotFound instead. -/
theorem update_zero_rows_notFound_witness :
    (updRowsAffected ⟨some 5, 0⟩ wStore 1 = 0) ∧
    (Update ⟨some 5, 0⟩ wStore 1 [] 7).err = some .notFound :=
  ⟨by decide,
    update_zero_rows_notFound ⟨some 5, 0⟩ wStore 1 [] 7 (by decide)⟩

end Repo
